import Mathlib

/-!
Verification development for the `diagnosys` statistical routines:
`class_conditional_descriptive_statistics.py`, `detect_outliers_multivariate.py`,
`proc_univariate.py` and `stat_explore.py`.

The tabular data model uses `Option ℚ` cells (`none` models a missing value /
NaN); all numeric computation is embedded over `ℚ`.  Statistics whose values are
irrational (standard deviation, skewness, coefficient of variation, standard
error, t statistic — all involve a square root) are not representable over `ℚ`
and are omitted from the result records; no property stated below concerns them.
External collaborators (the isolation-forest estimator, Student's t CDF, the
Wilcoxon signed-rank routine) are opaque and appear as explicit parameters,
except the binomial CDF, which is standard mathematics and defined concretely.
-/

set_option maxHeartbeats 1600000

namespace Diagnosys

/-- A cell of a numeric column: `none` models a missing value (NaN). -/
abbrev Cell := Option ℚ

/-- Embeds `Series.dropna()`: the non-missing values of a column, in order. -/
def cleanData (xs : List Cell) : List ℚ := xs.filterMap id

/-- Embeds `Series.mean()` over a list of (non-missing) values: `Σx / n`. -/
def listMean (xs : List ℚ) : ℚ := xs.sum / xs.length

/-- The corrected sum of squares `Σ (x - mean)²` (numpy `np.sum((x - mean)**2)`). -/
def sumSqDev (xs : List ℚ) : ℚ := (xs.map (fun x => (x - listMean xs) ^ 2)).sum

/-- The sum of fourth powers of deviations from the mean, `Σ (x - mean)⁴`. -/
def sumQuartDev (xs : List ℚ) : ℚ := (xs.map (fun x => (x - listMean xs) ^ 4)).sum

/-- Embeds `scipy.stats.kurtosis(xs, bias=False, fisher=False)`: Pearson (non-excess)
kurtosis, bias-corrected when `n > 3`.  scipy computes the biased value
`m4/m2² = n·S4/S2²` from the central moments, replaces it by the bias-corrected
value `1/((n-2)(n-3))·((n²-1)·m4/m2² - 3(n-1)²) + 3` when `n > 3` and the
variance is nonzero, and yields NaN (here `none`) when `m2 = 0`. -/
def scipyKurtosis (xs : List ℚ) : Option ℚ :=
  if xs.length = 0 ∨ sumSqDev xs = 0 then none
  else if 3 < xs.length then
    some ((1 / (((xs.length : ℚ) - 2) * ((xs.length : ℚ) - 3))) *
      (((xs.length : ℚ) ^ 2 - 1) * ((xs.length : ℚ) * sumQuartDev xs / sumSqDev xs ^ 2)
        - 3 * ((xs.length : ℚ) - 1) ^ 2) + 3)
  else some ((xs.length : ℚ) * sumQuartDev xs / sumSqDev xs ^ 2)

/-- pandas `Series.kurt()` (= `Series.kurtosis()`), i.e. `nankurt`: the sample
EXCESS kurtosis `G₂`.  With `S2 = Σ(x-x̄)²`, `S4 = Σ(x-x̄)⁴`, pandas returns NaN
(here `none`) when `n < 4`, the literal value `0` when the denominator
`(n-2)(n-3)S2²` vanishes, and otherwise
`n(n+1)(n-1)·S4 / ((n-2)(n-3)·S2²) - 3(n-1)²/((n-2)(n-3))`. -/
def pandasKurt (xs : List ℚ) : Option ℚ :=
  if xs.length < 4 then none
  else if sumSqDev xs = 0 then some 0
  else
    some ((xs.length : ℚ) * ((xs.length : ℚ) + 1) * ((xs.length : ℚ) - 1) * sumQuartDev xs /
        ((((xs.length : ℚ)) - 2) * (((xs.length : ℚ)) - 3) * sumSqDev xs ^ 2)
      - 3 * ((xs.length : ℚ) - 1) ^ 2 / ((((xs.length : ℚ)) - 2) * (((xs.length : ℚ)) - 3)))

/-- pandas `Series.sort_values()` for a plain list of values: sort ascending.
numpy's default sort is stable on the small inputs evaluated concretely below
(insertion sort is used for runs shorter than 16) and ties are otherwise
implementation-defined; no property below depends on the tie order of this
value sort. -/
def sortValues (xs : List ℚ) : List ℚ := List.insertionSort (· ≤ ·) xs

/-- Linear interpolation between order statistics at virtual index `h`
(numpy/pandas `interpolation='linear'`): with `j = ⌊h⌋`, the value
`s[j] + (h - j)·(s[j+1] - s[j])`, falling back to the last element when
`j + 1` is out of range. -/
def interpAt (s : List ℚ) (h : ℚ) : ℚ :=
  if (⌊h⌋).toNat + 1 < s.length then
    s.getD (⌊h⌋).toNat 0 +
      (h - ((⌊h⌋).toNat : ℚ)) * (s.getD ((⌊h⌋).toNat + 1) 0 - s.getD (⌊h⌋).toNat 0)
  else s.getD (s.length - 1) 0

/-- Embeds `Series.quantile(p)` on an already sorted list (SAS "Definition 5"-equivalent
linear interpolation): evaluate at virtual index `p·(n-1)`. -/
def quantileSorted (s : List ℚ) (p : ℚ) : ℚ := interpAt s (p * ((s.length : ℚ) - 1))

/-- Embeds `Series.quantile(p)` with the pandas default `interpolation='linear'`. -/
def seriesQuantile (xs : List ℚ) (p : ℚ) : ℚ := quantileSorted (sortValues xs) p

/-- Embeds `Series.min()`: the least value, i.e. the head of the value-sorted list. -/
def seriesMin (xs : List ℚ) : ℚ := (sortValues xs).getD 0 0

/-- Embeds `Series.max()`: the greatest value, i.e. the last of the value-sorted list. -/
def seriesMax (xs : List ℚ) : ℚ := (sortValues xs).getD (xs.length - 1) 0

/-- Embeds `Series.median()`: the middle order statistic for odd `n`, the midpoint of
the two middle order statistics for even `n`. -/
def pandasMedian (xs : List ℚ) : ℚ :=
  if xs.length % 2 = 1 then (sortValues xs).getD (xs.length / 2) 0
  else ((sortValues xs).getD (xs.length / 2 - 1) 0 + (sortValues xs).getD (xs.length / 2) 0) / 2

/-- The non-missing values of a column paired with their original row
positions (pandas `dropna` keeps the original index labels). -/
def cleanWithIndex (xs : List Cell) : List (ℕ × ℚ) :=
  xs.enum.filterMap (fun p => p.2.map (fun v => (p.1, v)))

/-- Embeds `clean_data.sort_values()` keeping the index: sort the (position, value)
pairs ascending by value (stable for the inputs evaluated concretely here;
no stated property depends on the tie order). -/
def sortWithIndex (xs : List Cell) : List (ℕ × ℚ) :=
  List.insertionSort (fun a b => a.2 ≤ b.2) (cleanWithIndex xs)

instance : IsTotal (ℕ × ℚ) (fun a b => a.2 ≤ b.2) := ⟨fun a b => le_total a.2 b.2⟩

instance : IsTrans (ℕ × ℚ) (fun a b => a.2 ≤ b.2) := ⟨fun _ _ _ => le_trans⟩

/-- Embeds `scipy.stats.mode`: a most frequent value (scipy reports the smallest modal
value; ties are broken towards the smaller value by scanning in sorted order). -/
def modeOf (xs : List ℚ) : ℚ :=
  (sortValues xs).foldl (fun best x => if xs.count best < xs.count x then x else best)
    ((sortValues xs).getD 0 0)

/-- Embeds `scipy.stats.binom.cdf(k, n, 0.5)`: the CDF of `Binomial(n, 1/2)` at `k`,
`(Σ_{i ≤ k} C(n,i)) / 2^n`. -/
def binomHalfCdf (k n : ℕ) : ℚ := (∑ i in Finset.range (k + 1), (n.choose i : ℚ)) / 2 ^ n

/-- The 11 quantile values reported by `proc_univariate` (levels 0%, 1%, 5%,
10%, 25%, 50%, 75%, 90%, 95%, 99%, 100%), exactly as the source builds the
`quantiles` dict: the 0% entry is `clean_data.min()`, the 25%/75% entries are
`q1`/`q3`, the 50% entry `clean_data.median()`, the 100% entry
`clean_data.max()`, the rest `clean_data.quantile(p)`. -/
def univQuantiles (clean : List ℚ) : List ℚ :=
  [seriesMin clean, seriesQuantile clean (1/100), seriesQuantile clean (5/100),
   seriesQuantile clean (10/100), seriesQuantile clean (25/100), pandasMedian clean,
   seriesQuantile clean (75/100), seriesQuantile clean (90/100),
   seriesQuantile clean (95/100), seriesQuantile clean (99/100), seriesMax clean]

/-- The programmatic result of `proc_univariate` (the returned dict), turned
into a record.  Statistics whose exact values are irrational (std deviation,
skewness, coefficient of variation, standard error of the mean, and the
t-test pair, which all contain a square root) are omitted — see the file
header; no stated property concerns them. -/
structure UnivariateResult where
  n : ℕ
  mean : ℚ
  sumWeights : ℕ
  sumObservations : ℚ
  variance : Option ℚ
  kurtosisStat : Option ℚ
  uncorrectedSS : ℚ
  correctedSS : ℚ
  median : ℚ
  modeStat : ℚ
  rangeStat : ℚ
  iqr : ℚ
  signStatistic : ℕ
  signPvalue : ℚ
  signedRank : Option (ℚ × ℚ)
  quantiles : List ℚ
  lowestExtreme : List (ℕ × ℚ)
  highestExtreme : List (ℕ × ℚ)

/-- The error raised by `proc_univariate`: `ValueError("No valid observations
found")` when zero observations remain after dropping missing values. -/
inductive UnivariateError
  | noValidObservations
deriving DecidableEq

/-- The record `proc_univariate` assembles on nonempty clean data.
`wilcoxonTest` is the opaque `scipy.stats.wilcoxon` collaborator; the source
wraps it in `try/except` and stores NaN on failure, modelled by `Option`.
`variance` is `Series.var(ddof=1) = S2/(n-1)` (NaN when `n < 2`);
`kurtosisStat` is `scipy.stats.kurtosis(clean, bias=False, fisher=False)`;
the sign test counts strictly positive values and doubles the binomial CDF at
`min(positives, n - positives)`; the extreme lists are the first five and the
last five entries of the value-sorted indexed data, both in ascending value
order (the source builds the highest list descending and then reverses it). -/
def univResult (wilcoxonTest : List ℚ → Option (ℚ × ℚ)) (data : List Cell) :
    UnivariateResult :=
  { n := (cleanData data).length
    mean := listMean (cleanData data)
    sumWeights := (cleanData data).length
    sumObservations := (cleanData data).sum
    variance := if 2 ≤ (cleanData data).length
      then some (sumSqDev (cleanData data) / (((cleanData data).length : ℚ) - 1))
      else none
    kurtosisStat := scipyKurtosis (cleanData data)
    uncorrectedSS := ((cleanData data).map (fun x => x ^ 2)).sum
    correctedSS := sumSqDev (cleanData data)
    median := pandasMedian (cleanData data)
    modeStat := modeOf (cleanData data)
    rangeStat := seriesMax (cleanData data) - seriesMin (cleanData data)
    iqr := seriesQuantile (cleanData data) (75/100) - seriesQuantile (cleanData data) (25/100)
    signStatistic := (cleanData data).countP (fun x => decide (0 < x))
    signPvalue := 2 * binomHalfCdf
      (min ((cleanData data).countP (fun x => decide (0 < x)))
        ((cleanData data).length - (cleanData data).countP (fun x => decide (0 < x))))
      (cleanData data).length
    signedRank := wilcoxonTest (cleanData data)
    quantiles := univQuantiles (cleanData data)
    lowestExtreme := (sortWithIndex data).take 5
    highestExtreme := (sortWithIndex data).drop ((sortWithIndex data).length - 5) }

/-- Embeds `proc_univariate(data)`: drop missing values, raise when nothing remains,
otherwise compute the full univariate report. -/
def proc_univariate (wilcoxonTest : List ℚ → Option (ℚ × ℚ)) (data : List Cell) :
    Except UnivariateError UnivariateResult :=
  if (cleanData data).length = 0 then .error .noValidObservations
  else .ok (univResult wilcoxonTest data)

/-- The always-failing Wilcoxon collaborator, used in concrete instantiations. -/
def wNone : List ℚ → Option (ℚ × ℚ) := fun _ => none

/-- The concrete ten-value column 1, 2, …, 10 (no missing values). -/
def colTen : List Cell :=
  [some 1, some 2, some 3, some 4, some 5, some 6, some 7, some 8, some 9, some 10]

/-- A row of the input to `class_conditional_distribution`, projected to the
two columns the function reads: the binary target column and the numeric
analysis column (both possibly missing). -/
structure CCRow where
  target : Cell
  value : Cell
deriving DecidableEq

/-- The `Target Level` key of a result row: a group value of the target column,
or the synthetic `_OVERALL_` level. -/
inductive CCLevel
  | group (g : ℚ)
  | overall
deriving DecidableEq

/-- One row of the table returned by `class_conditional_distribution`.
The `Standard Deviation` and `Skewness` columns are irrational-valued
(they involve a square root) and are omitted — see the file header. -/
structure CCStats where
  level : CCLevel
  median : Option ℚ
  missing : ℕ
  nonMissing : ℕ
  minimum : Option ℚ
  maximum : Option ℚ
  mean : Option ℚ
  kurtosisStat : Option ℚ
deriving DecidableEq

/-- The aggregate statistics pandas computes for one list of cells (one group's
analysis column, or the whole column): `median/min/max/mean` skip missing
values and are NaN (`none`) on an all-missing list; `Missing`/`Non Missing`
count null and non-null cells; `Kurtosis` is pandas `kurt()`. -/
def ccAggregate (lvl : CCLevel) (vals : List Cell) : CCStats :=
  { level := lvl
    median := if cleanData vals = [] then none else some (pandasMedian (cleanData vals))
    missing := vals.countP (fun c => c.isNone)
    nonMissing := vals.countP (fun c => c.isSome)
    minimum := if cleanData vals = [] then none else some (seriesMin (cleanData vals))
    maximum := if cleanData vals = [] then none else some (seriesMax (cleanData vals))
    mean := if cleanData vals = [] then none else some (listMean (cleanData vals))
    kurtosisStat := pandasKurt (cleanData vals) }

/-- The distinct non-missing target values, in ascending order (pandas
`groupby` drops rows whose group key is missing and sorts the keys). -/
def ccGroupKeys (df : List CCRow) : List ℚ :=
  sortValues (df.filterMap (fun r => r.target)).dedup

/-- The `_OVERALL_` row: statistics of the whole analysis column (all rows,
regardless of target). -/
def ccOverallStats (df : List CCRow) : CCStats :=
  ccAggregate .overall (df.map (fun r => r.value))

/-- Embeds `class_conditional_distribution(df, target_col, analysis_col)`: one result
row per target level (grouped statistics of the analysis column) followed by
the `_OVERALL_` row. -/
def class_conditional_distribution (df : List CCRow) : List CCStats :=
  (ccGroupKeys df).map
      (fun g => ccAggregate (.group g)
        ((df.filter (fun r => r.target = some g)).map (fun r => r.value)))
    ++ [ccOverallStats df]

/-- Embeds the `ValueError` raised when no numeric columns are found. -/
inductive ExploreError
  | noNumericColumns
deriving DecidableEq

/-- One row of the `stat_explore` summary table.  The constant `'INPUT'` Role
column and the irrational-valued `Standard Deviation`/`Skewness` columns are
omitted — see the file header. -/
structure ExploreRow where
  variableName : String
  meanStat : Option ℚ
  nonMissing : ℕ
  missing : ℕ
  minimum : Option ℚ
  medianStat : Option ℚ
  maximum : Option ℚ
  kurtosisStat : Option ℚ
deriving DecidableEq

/-- The summary row `stat_explore` computes for one column: an all-missing
column yields NaN statistics with correct counts; otherwise the statistics of
the clean data, with kurtosis `scipy.stats.kurtosis(·, bias=False,
fisher=False)`. -/
def exploreRow (nm : String) (data : List Cell) : ExploreRow :=
  { variableName := nm
    meanStat := if (cleanData data).length = 0 then none
      else some (listMean (cleanData data))
    nonMissing := (cleanData data).length
    missing := data.length - (cleanData data).length
    minimum := if (cleanData data).length = 0 then none
      else some (seriesMin (cleanData data))
    medianStat := if (cleanData data).length = 0 then none
      else some (pandasMedian (cleanData data))
    maximum := if (cleanData data).length = 0 then none
      else some (seriesMax (cleanData data))
    kurtosisStat := if (cleanData data).length = 0 then none
      else scipyKurtosis (cleanData data) }

/-- Embeds `stat_explore(df)`: raise when the dataset has no numeric columns,
otherwise one summary row per numeric column, in column order.  The input is
the list of (name, data) numeric columns (dtype selection is a typing concern
outside the value model). -/
def stat_explore (cols : List (String × List Cell)) :
    Except ExploreError (List ExploreRow) :=
  if cols.length = 0 then .error .noNumericColumns
  else .ok (cols.map (fun c => exploreRow c.1 c.2))

/-- The concrete five-value column 1, …, 5. -/
def colFive : List Cell := [some 1, some 2, some 3, some 4, some 5]

/-- The column `colFive` paired with the constant target 0, as input for
`class_conditional_distribution`. -/
def dfFive : List CCRow :=
  [⟨some 0, some 1⟩, ⟨some 0, some 2⟩, ⟨some 0, some 3⟩, ⟨some 0, some 4⟩,
   ⟨some 0, some 5⟩]

/-- A pandas DataFrame restricted to what the outlier detector touches: named
numeric columns, row labels (the index), and rows aligned with `cols`. -/
structure Frame where
  cols : List String
  index : List ℕ
  rows : List (List ℚ)
deriving DecidableEq

/-- The value of column `c` in a row aligned with `cols` (position of the
first occurrence of `c`). -/
def colValue (cols : List String) (r : List ℚ) (c : String) : ℚ :=
  r.getD (cols.indexOf c) 0

/-- Column names after `df[c] = vals`: pandas replaces an existing column in
place and appends a new one at the end. -/
def setColNames (cols : List String) (c : String) : List String :=
  if c ∈ cols then cols else cols ++ [c]

/-- One row after `df[c] = vals`: overwrite the entry of an existing column
`c`, or append the new value. -/
def setEntry (cols : List String) (r : List ℚ) (c : String) (v : ℚ) : List ℚ :=
  if c ∈ cols then r.set (cols.indexOf c) v else r ++ [v]

/-- Embeds `df[c] = vals` on a whole frame (the index is untouched). -/
def frameSetColumn (f : Frame) (c : String) (vals : List ℚ) : Frame :=
  { cols := setColNames f.cols c
    index := f.index
    rows := (f.rows.zip vals).map (fun p => setEntry f.cols p.1 c p.2) }

/-- Embeds `df[features]` as a row-major matrix: the feature values of each row. -/
def featureMatrix (f : Frame) (features : List String) : List (List ℚ) :=
  f.rows.map (fun r => features.map (fun c => colValue f.cols r c))

/-- The opaque isolation-forest estimator (§6): a per-row decision function
and a per-row outlier label.  `contamination`, `n_estimators` and
`random_state` only select which estimator is obtained, so they are absorbed
into the estimator value. -/
structure IsoEstimator where
  decisionFunction : List ℚ → ℚ
  predictOutlier : List ℚ → Bool

/-- The failures of the outlier detector: the explicit `ValueError` listing the
missing feature columns, and the estimator's fit-time requirement of at least
one feature.  Modelled from the spec (§4.2 Failure): the estimator is an
external collaborator whose `fit` asserts a non-empty feature matrix. -/
inductive DetectError
  | validationError (missing : List String)
  | atLeastOneFeature
deriving DecidableEq

/-- The name of the appended anomaly-score column. -/
def scoreName : String := "outlier_score"

/-- The name of the appended outlier-flag column. -/
def flagName : String := "outlier_flag"

/-- The keyed rows of `df.sort_values(c, ascending=False)`: pandas computes an
ascending argsort of the column (stable for the small inputs evaluated
concretely here) and REVERSES it, so ties end up in reversed relative order. -/
def frameKeyedSortDesc (f : Frame) (c : String) : List (ℕ × List ℚ) :=
  (List.insertionSort
      (fun a b : ℕ × List ℚ => colValue f.cols a.2 c ≤ colValue f.cols b.2 c)
      (f.index.zip f.rows)).reverse

/-- Embeds `df.sort_values(c, ascending=False)` (the index travels with the rows). -/
def frameSortValuesDesc (f : Frame) (c : String) : Frame :=
  { cols := f.cols
    index := (frameKeyedSortDesc f c).map Prod.fst
    rows := (frameKeyedSortDesc f c).map Prod.snd }

/-- Embeds `reset_index(drop=True)`: relabel the rows 0..n-1, discarding the old
index. -/
def frameResetIndex (f : Frame) : Frame :=
  { f with index := List.range f.rows.length }

/-- Embeds `detect_outliers_isolation_forest(df, features, ...)`: validate the feature
columns (raising a `ValueError` listing the missing ones), fit the opaque
estimator on `df[features]` (which requires at least one feature), append the
negated decision function as `outlier_score` and the 0/1 outlier flag as
`outlier_flag` to a copy of `df`, and return that copy sorted by descending
score with the index reset. -/
def detect_outliers_isolation_forest (est : IsoEstimator) (df : Frame)
    (features : List String) : Except DetectError Frame :=
  if features.filter (fun c => decide (¬ c ∈ df.cols)) ≠ [] then
    .error (.validationError (features.filter (fun c => decide (¬ c ∈ df.cols))))
  else if features.length = 0 then
    .error .atLeastOneFeature
  else
    .ok (frameResetIndex (frameSortValuesDesc
      (frameSetColumn
        (frameSetColumn df scoreName
          ((featureMatrix df features).map (fun x => - est.decisionFunction x)))
        flagName
        ((featureMatrix df features).map (fun x => if est.predictOutlier x then 1 else 0)))
      scoreName))

/-- An object heap for the frames manipulated by the function body; references
are positions, and the caller's DataFrame is cell 0. -/
abbrev Heap := List Frame

/-- Dereference a heap cell. -/
def heapGet (h : Heap) (r : ℕ) : Frame := h.getD r ⟨[], [], []⟩

/-- Overwrite a heap cell (a mutating statement on that object). -/
def heapSet (h : Heap) (r : ℕ) (f : Frame) : Heap := h.set r f

/-- Allocate a fresh object, returning the extended heap and the new
reference. -/
def heapAlloc (h : Heap) (f : Frame) : Heap × ℕ := (h ++ [f], h.length)

/-- The statement-by-statement execution of
`detect_outliers_isolation_forest` over an explicit object heap: the caller's
`df` is cell 0, `df_result = df.copy()` allocates a fresh cell, and the two
column assignments write only that fresh cell; `sort_values` and
`reset_index` build new values.  Returns the final heap together with the
returned frame. -/
def detectProgram (est : IsoEstimator) (df : Frame) (features : List String) :
    Except DetectError (Heap × Frame) :=
  let heap0 : Heap := [df]
  if features.filter (fun c => decide (¬ c ∈ (heapGet heap0 0).cols)) ≠ [] then
    .error (.validationError
      (features.filter (fun c => decide (¬ c ∈ (heapGet heap0 0).cols))))
  else
    let X := featureMatrix (heapGet heap0 0) features
    if features.length = 0 then
      .error .atLeastOneFeature
    else
      let alloc1 := heapAlloc heap0 (heapGet heap0 0)
      let heap2 := heapSet alloc1.1 alloc1.2
        (frameSetColumn (heapGet alloc1.1 alloc1.2) scoreName
          (X.map (fun x => - est.decisionFunction x)))
      let heap3 := heapSet heap2 alloc1.2
        (frameSetColumn (heapGet heap2 alloc1.2) flagName
          (X.map (fun x => if est.predictOutlier x then 1 else 0)))
      .ok (heap3, frameResetIndex (frameSortValuesDesc (heapGet heap3 alloc1.2) scoreName))

/-- The copy of `df` carrying the two appended columns (`df_result` just before
sorting): negated decision-function scores and 0/1 outlier flags. -/
def scoredFrame (est : IsoEstimator) (df : Frame) (features : List String) : Frame :=
  frameSetColumn
    (frameSetColumn df scoreName
      ((featureMatrix df features).map (fun x => - est.decisionFunction x)))
    flagName
    ((featureMatrix df features).map (fun x => if est.predictOutlier x then 1 else 0))

/-- The constant estimator assigning decision value 0 (hence outlier score 0)
and the normal label to every row. -/
def estC : IsoEstimator := ⟨fun _ => 0, fun _ => false⟩

/-- A two-row frame with a single column `a`, values 1 and 2, index 0, 1. -/
def dfTwo : Frame := ⟨["a"], [0, 1], [[1], [2]]⟩

/-- The result frame of the concrete tied-scores run: both rows score 0, and
the descending sort has reversed them. -/
def outTwo : Frame :=
  ⟨["a", "outlier_score", "outlier_flag"], [0, 1], [[2, 0, 0], [1, 0, 0]]⟩

/-- The two kurtosis conventions present in the repository differ by exactly 3:
pandas' `kurt()` (excess) equals scipy's `kurtosis(bias=False, fisher=False)`
(Pearson non-excess) minus 3, on any column with at least 4 values and nonzero
squared deviation. -/
theorem pandasKurt_eq_scipyKurtosis_sub_three (xs : List ℚ)
    (h4 : 4 ≤ xs.length) (hS2 : sumSqDev xs ≠ 0) {q : ℚ}
    (hq : scipyKurtosis xs = some q) : pandasKurt xs = some (q - 3) := by
  have hn0 : xs.length ≠ 0 := by omega
  have h3 : 3 < xs.length := by omega
  have hlt : ¬ xs.length < 4 := by omega
  have hN4 : (4 : ℚ) ≤ (xs.length : ℚ) := by exact_mod_cast h4
  have hN2 : ((xs.length : ℚ) - 2) ≠ 0 := by nlinarith
  have hN3 : ((xs.length : ℚ) - 3) ≠ 0 := by nlinarith
  rw [scipyKurtosis, if_neg (by tauto), if_pos h3] at hq
  have hq' := (Option.some.injEq _ _).mp hq
  rw [pandasKurt, if_neg hlt, if_neg hS2]
  refine congrArg some ?_
  rw [← hq']
  field_simp
  ring

/-- On a sorted list, `getD` (default `0`) is monotone in the position, for
in-range positions. -/
theorem sorted_getD_mono {s : List ℚ} (hs : List.Sorted (· ≤ ·) s) {i j : ℕ}
    (hij : i ≤ j) (hj : j < s.length) : s.getD i 0 ≤ s.getD j 0 := by
  have hi : i < s.length := lt_of_le_of_lt hij hj
  rcases lt_or_eq_of_le hij with hlt | rfl
  · have h := hs.rel_get_of_lt (a := ⟨i, hi⟩) (b := ⟨j, hj⟩) hlt
    simpa [List.getD_eq_getElem?_getD, List.getElem?_eq_getElem, hi, hj, List.get_eq_getElem]
      using h
  · exact le_refl _

/-- Position/floor bookkeeping: for `0 ≤ a`, `((⌊a⌋).toNat : ℚ) ≤ a`. -/
theorem toNat_floor_le {a : ℚ} (ha : 0 ≤ a) : (((⌊a⌋).toNat : ℚ)) ≤ a := by
  have h1 : ((⌊a⌋).toNat : ℤ) = ⌊a⌋ := Int.toNat_of_nonneg (Int.floor_nonneg.mpr ha)
  have h2 : (((⌊a⌋).toNat : ℚ)) = ((⌊a⌋ : ℤ) : ℚ) := by exact_mod_cast h1
  rw [h2]
  exact Int.floor_le a

/-- For `0 ≤ a`, `a < (⌊a⌋).toNat + 1`. -/
theorem lt_toNat_floor_add_one {a : ℚ} (ha : 0 ≤ a) : a < ((⌊a⌋).toNat : ℚ) + 1 := by
  have h1 : ((⌊a⌋).toNat : ℤ) = ⌊a⌋ := Int.toNat_of_nonneg (Int.floor_nonneg.mpr ha)
  have h2 : (((⌊a⌋).toNat : ℚ)) = ((⌊a⌋ : ℤ) : ℚ) := by exact_mod_cast h1
  rw [h2]
  exact Int.lt_floor_add_one a

/-- For `a ≤ n - 1` (with `1 ≤ n`), the virtual position `(⌊a⌋).toNat` is at
most `n - 1`. -/
theorem toNat_floor_le_pred {a : ℚ} {n : ℕ} (hn : 1 ≤ n) (han : a ≤ (n : ℚ) - 1) :
    (⌊a⌋).toNat ≤ n - 1 := by
  have h1 : ⌊a⌋ ≤ ⌊((n : ℚ) - 1)⌋ := Int.floor_le_floor han
  have h2 : ((n : ℚ) - 1) = (((n : ℤ) - 1 : ℤ) : ℚ) := by push_cast; ring
  rw [h2, Int.floor_intCast] at h1
  omega

/-- Lower bound: on a sorted list, the interpolated value at `a` is at least the
order statistic at position `⌊a⌋`. -/
theorem le_interpAt {s : List ℚ} (hs : List.Sorted (· ≤ ·) s) {a : ℚ}
    (ha : 0 ≤ a) (han : a ≤ (s.length : ℚ) - 1) :
    s.getD (⌊a⌋).toNat 0 ≤ interpAt s a := by
  have hn : 1 ≤ s.length := by
    by_contra h
    have h0 : s.length = 0 := by omega
    rw [h0] at han
    norm_num at han
    linarith
  rw [interpAt]
  split
  · rename_i hlt
    have hj : (((⌊a⌋).toNat : ℚ)) ≤ a := toNat_floor_le ha
    have hd : s.getD (⌊a⌋).toNat 0 ≤ s.getD ((⌊a⌋).toNat + 1) 0 :=
      sorted_getD_mono hs (Nat.le_succ _) (by omega)
    nlinarith [mul_nonneg (sub_nonneg.mpr hj) (sub_nonneg.mpr hd)]
  · rename_i hge
    have hjle : (⌊a⌋).toNat ≤ s.length - 1 := toNat_floor_le_pred hn han
    have hj : (⌊a⌋).toNat = s.length - 1 := by omega
    rw [hj]

/-- Upper bound: on a sorted list, the interpolated value at `a` is at most the
order statistic at position `min (⌊a⌋+1) (n-1)`. -/
theorem interpAt_le {s : List ℚ} (hs : List.Sorted (· ≤ ·) s) {a : ℚ}
    (ha : 0 ≤ a) (han : a ≤ (s.length : ℚ) - 1) :
    interpAt s a ≤ s.getD (min ((⌊a⌋).toNat + 1) (s.length - 1)) 0 := by
  have hn : 1 ≤ s.length := by
    by_contra h
    have h0 : s.length = 0 := by omega
    rw [h0] at han
    norm_num at han
    linarith
  rw [interpAt]
  split
  · rename_i hlt
    have hmin : min ((⌊a⌋).toNat + 1) (s.length - 1) = (⌊a⌋).toNat + 1 :=
      min_eq_left (by omega)
    rw [hmin]
    have hj : (((⌊a⌋).toNat : ℚ)) ≤ a := toNat_floor_le ha
    have hj1 : a < ((⌊a⌋).toNat : ℚ) + 1 := lt_toNat_floor_add_one ha
    have hd : s.getD (⌊a⌋).toNat 0 ≤ s.getD ((⌊a⌋).toNat + 1) 0 :=
      sorted_getD_mono hs (Nat.le_succ _) (by omega)
    nlinarith [mul_nonneg (by linarith : (0:ℚ) ≤ 1 - (a - ((⌊a⌋).toNat : ℚ)))
      (sub_nonneg.mpr hd)]
  · rename_i hge
    have hjle : (⌊a⌋).toNat ≤ s.length - 1 := toNat_floor_le_pred hn han
    have hmin : min ((⌊a⌋).toNat + 1) (s.length - 1) = s.length - 1 :=
      min_eq_right (by omega)
    rw [hmin]

/-- Monotonicity of linear interpolation between order statistics of a sorted
list: a larger virtual index yields a value at least as large. -/
theorem interpAt_mono {s : List ℚ} (hs : List.Sorted (· ≤ ·) s) {a b : ℚ}
    (ha : 0 ≤ a) (hab : a ≤ b) (hbn : b ≤ (s.length : ℚ) - 1) :
    interpAt s a ≤ interpAt s b := by
  have hb0 : 0 ≤ b := le_trans ha hab
  have han : a ≤ (s.length : ℚ) - 1 := le_trans hab hbn
  have hn : 1 ≤ s.length := by
    by_contra h
    have h0 : s.length = 0 := by omega
    rw [h0] at hbn
    norm_num at hbn
    linarith
  have hjab : (⌊a⌋).toNat ≤ (⌊b⌋).toNat := Int.toNat_le_toNat (Int.floor_le_floor hab)
  rcases lt_or_eq_of_le hjab with hlt | heq
  · have hjb : (⌊b⌋).toNat ≤ s.length - 1 := toNat_floor_le_pred hn hbn
    calc interpAt s a ≤ s.getD (min ((⌊a⌋).toNat + 1) (s.length - 1)) 0 :=
          interpAt_le hs ha han
      _ ≤ s.getD (⌊b⌋).toNat 0 :=
          sorted_getD_mono hs (le_trans (min_le_left _ _) (by omega)) (by omega)
      _ ≤ interpAt s b := le_interpAt hs hb0 hbn
  · rw [interpAt, interpAt, heq]
    split
    · rename_i hcond
      have hja : (((⌊a⌋).toNat : ℚ)) ≤ a := toNat_floor_le ha
      rw [heq] at hja
      have hd : s.getD (⌊b⌋).toNat 0 ≤ s.getD ((⌊b⌋).toNat + 1) 0 :=
        sorted_getD_mono hs (Nat.le_succ _) (by omega)
      nlinarith [mul_nonneg (sub_nonneg.mpr hab) (sub_nonneg.mpr hd)]
    · exact le_rfl

/-- Quantile monotonicity on a sorted nonempty list: for levels
`0 ≤ p₁ ≤ p₂ ≤ 1`, the `p₁` quantile is at most the `p₂` quantile. -/
theorem quantileSorted_mono {s : List ℚ} (hs : List.Sorted (· ≤ ·) s)
    (hne : s ≠ []) {p1 p2 : ℚ} (h0 : 0 ≤ p1) (h12 : p1 ≤ p2) (h1 : p2 ≤ 1) :
    quantileSorted s p1 ≤ quantileSorted s p2 := by
  have hn : 1 ≤ s.length := List.length_pos.mpr hne
  have hn1 : (0 : ℚ) ≤ (s.length : ℚ) - 1 := by
    have h : (1 : ℚ) ≤ (s.length : ℚ) := by exact_mod_cast hn
    linarith
  rw [quantileSorted, quantileSorted]
  refine interpAt_mono hs (mul_nonneg h0 hn1) ?_ ?_
  · exact mul_le_mul_of_nonneg_right h12 hn1
  · nlinarith [h1, hn1]

/-- The 0-quantile of a sorted list is its head. -/
theorem quantileSorted_zero (s : List ℚ) : quantileSorted s 0 = s.getD 0 0 := by
  rw [quantileSorted, interpAt]
  have h0 : (0 : ℚ) * ((s.length : ℚ) - 1) = ((0 : ℤ) : ℚ) := by norm_num
  rw [h0, Int.floor_intCast]
  split
  · norm_num
  · rename_i h
    rw [show ((0:ℤ)).toNat = 0 from rfl] at h
    have hl : s.length - 1 = 0 := by omega
    rw [hl]

/-- The 1-quantile of a sorted nonempty list is its last element. -/
theorem quantileSorted_one (s : List ℚ) (hne : s ≠ []) :
    quantileSorted s 1 = s.getD (s.length - 1) 0 := by
  have hn : 1 ≤ s.length := List.length_pos.mpr hne
  rw [quantileSorted, interpAt]
  have h2 : (1 : ℚ) * ((s.length : ℚ) - 1) = (((s.length : ℤ) - 1 : ℤ) : ℚ) := by
    push_cast; ring
  rw [h2, Int.floor_intCast]
  have h3 : ((s.length : ℤ) - 1).toNat = s.length - 1 := by omega
  rw [h3]
  split
  · rename_i h
    exact absurd h (by omega)
  · rfl

/-- The value sort is sorted. -/
theorem sortValues_sorted (xs : List ℚ) : List.Sorted (· ≤ ·) (sortValues xs) :=
  List.sorted_insertionSort _ xs

/-- The value sort is a permutation of the input. -/
theorem sortValues_perm (xs : List ℚ) : (sortValues xs).Perm xs :=
  List.perm_insertionSort _ xs

/-- The value sort preserves length. -/
theorem sortValues_length (xs : List ℚ) : (sortValues xs).length = xs.length :=
  (sortValues_perm xs).length_eq

/-- pandas `Series.median()` coincides with the linear-interpolation 0.5
quantile (the midpoint of the two middle order statistics). -/
theorem pandasMedian_eq_quantileSorted (xs : List ℚ) (hne : xs ≠ []) :
    pandasMedian xs = quantileSorted (sortValues xs) (1/2) := by
  have hlen : (sortValues xs).length = xs.length := sortValues_length xs
  have hn : 1 ≤ xs.length := List.length_pos.mpr hne
  rw [pandasMedian, quantileSorted, interpAt, hlen]
  by_cases hpar : xs.length % 2 = 1
  · rw [if_pos hpar]
    obtain ⟨k, hk2⟩ : ∃ k, xs.length = 2 * k + 1 := ⟨xs.length / 2, by omega⟩
    have hdiv : xs.length / 2 = k := by omega
    rw [hdiv]
    have harith : (1/2 : ℚ) * ((xs.length : ℚ) - 1) = ((k : ℤ) : ℚ) := by
      rw [hk2]
      push_cast
      ring
    rw [harith, Int.floor_intCast, Int.toNat_natCast]
    split
    · rename_i h
      push_cast
      ring
    · rename_i h
      have h3 : xs.length - 1 = k := by omega
      rw [h3]
  · rw [if_neg hpar]
    obtain ⟨k, hk2⟩ : ∃ k, xs.length = 2 * k + 2 := ⟨xs.length / 2 - 1, by omega⟩
    have hdiv1 : xs.length / 2 - 1 = k := by omega
    have hdiv2 : xs.length / 2 = k + 1 := by omega
    rw [hdiv1, hdiv2]
    have harith : (1/2 : ℚ) * ((xs.length : ℚ) - 1) = ((2*k+1 : ℕ) : ℚ) / ((2:ℕ) : ℚ) := by
      rw [hk2]
      push_cast
      ring
    have hfl : ⌊(1/2 : ℚ) * ((xs.length : ℚ) - 1)⌋ = ((k : ℕ) : ℤ) := by
      rw [harith, Rat.floor_natCast_div_natCast]
      norm_cast
      omega
    rw [hfl, Int.toNat_natCast]
    split
    · rename_i h
      rw [harith]
      push_cast
      ring
    · rename_i h
      exact absurd (by omega : k + 1 < xs.length) h

/-- The call `proc_univariate` succeeds (with the assembled record) exactly on inputs
with at least one non-missing value. -/
theorem proc_univariate_ok (w : List ℚ → Option (ℚ × ℚ)) (data : List Cell)
    (hne : cleanData data ≠ []) :
    proc_univariate w data = .ok (univResult w data) := by
  rw [proc_univariate, if_neg]
  simpa [List.length_eq_zero] using hne

/-- The sorted value list of a nonempty list is nonempty. -/
theorem sortValues_ne_nil {xs : List ℚ} (hne : xs ≠ []) : sortValues xs ≠ [] := by
  intro h
  apply hne
  have hl := sortValues_length xs
  rw [h] at hl
  exact List.length_eq_zero.mp hl.symm

/-- The 11-entry quantile list of `proc_univariate` is sorted ascending on any
nonempty clean column. -/
theorem univQuantiles_sorted (clean : List ℚ) (hne : clean ≠ []) :
    List.Sorted (· ≤ ·) (univQuantiles clean) := by
  have hsne : sortValues clean ≠ [] := sortValues_ne_nil hne
  have hs := sortValues_sorted clean
  have hmin : seriesMin clean = quantileSorted (sortValues clean) 0 :=
    (quantileSorted_zero _).symm
  have hmax : seriesMax clean = quantileSorted (sortValues clean) 1 := by
    rw [quantileSorted_one _ hsne, seriesMax, sortValues_length]
  have hmed := pandasMedian_eq_quantileSorted clean hne
  rw [univQuantiles, hmin, hmax, hmed]
  simp only [seriesQuantile]
  refine List.chain'_iff_pairwise.mp ?_
  simp only [List.chain'_cons, List.chain'_singleton, and_true]
  refine ⟨?_, ?_, ?_, ?_, ?_, ?_, ?_, ?_, ?_, ?_⟩ <;>
    exact quantileSorted_mono hs hsne (by norm_num) (by norm_num) (by norm_num)

/-- C5: `proc_univariate` raises an error exactly when zero observations remain
after discarding missing values; on every input with at least one non-missing
value it returns a result. -/
theorem claim_C5 (w : List ℚ → Option (ℚ × ℚ)) (data : List Cell) :
    (∃ e, proc_univariate w data = .error e) ↔ cleanData data = [] := by
  rw [proc_univariate]
  split
  · rename_i h
    simp only [List.length_eq_zero] at h
    exact ⟨fun _ => h, fun _ => ⟨.noValidObservations, rfl⟩⟩
  · rename_i h
    simp only [List.length_eq_zero] at h
    constructor
    · rintro ⟨e, he⟩
      exact absurd he (by simp)
    · intro hc
      exact absurd hc h

/-- C7: in the result of `proc_univariate`, the 11 reported quantile values
(levels 0% through 100%) are monotone: the value at a lower level is at most
the value at any higher level. -/
theorem claim_C7 (w : List ℚ → Option (ℚ × ℚ)) (data : List Cell)
    (r : UnivariateResult) (hr : proc_univariate w data = .ok r) {i j : ℕ}
    (hij : i ≤ j) (hj : j < 11) :
    r.quantiles.getD i 0 ≤ r.quantiles.getD j 0 := by
  rw [proc_univariate] at hr
  split at hr
  · exact absurd hr (by simp)
  · rename_i hlen
    have hne : cleanData data ≠ [] := by
      simpa [List.length_eq_zero] using hlen
    have hrr : r = univResult w data := by
      simpa using hr.symm
    have hq : r.quantiles = univQuantiles (cleanData data) := by
      rw [hrr]
      rfl
    rw [hq]
    exact sorted_getD_mono (univQuantiles_sorted _ hne) hij hj

/-- Witness for C7: on the concrete column `[1]`, the 0% quantile is at most the
100% quantile. -/
theorem claim_C7_witness :
    (univResult wNone [some 1]).quantiles.getD 0 0 ≤
      (univResult wNone [some 1]).quantiles.getD 10 0 :=
  claim_C7 wNone [some 1] _ (proc_univariate_ok wNone [some 1] (by simp [cleanData]))
    (by norm_num) (by norm_num)

/-- C9: the two-sided sign-test p-value is not clamped to 1: on the column
`[1, -1]` the reported value `2·BinomCDF(min(pos, n-pos); n, 1/2)` equals
`3/2`, which exceeds 1. -/
theorem claim_C9 (w : List ℚ → Option (ℚ × ℚ)) :
    (proc_univariate w [some 1, some (-1)]).map UnivariateResult.signPvalue
        = .ok (3/2) ∧ (1 : ℚ) < 3/2 := by
  refine ⟨?_, by norm_num⟩
  have hc : cleanData [some 1, some (-1)] = [1, -1] := by
    simp [cleanData]
  rw [proc_univariate, if_neg (by rw [hc]; norm_num)]
  show Except.ok (univResult w [some 1, some (-1)]).signPvalue = Except.ok (3/2)
  refine congrArg Except.ok ?_
  show 2 * binomHalfCdf
      (min ((cleanData [some 1, some (-1)]).countP (fun x => decide (0 < x)))
        ((cleanData [some 1, some (-1)]).length -
          (cleanData [some 1, some (-1)]).countP (fun x => decide (0 < x))))
      (cleanData [some 1, some (-1)]).length = 3/2
  rw [hc]
  have hcount : ([1, -1] : List ℚ).countP (fun x => decide (0 < x)) = 1 := by
    norm_num [List.countP_cons]
  rw [hcount]
  show 2 * binomHalfCdf 1 2 = 3/2
  rw [binomHalfCdf]
  rw [Finset.sum_range_succ, Finset.sum_range_one]
  norm_num

/-- The indexed clean entries built from `enumFrom k` have strictly increasing
positions, all at least `k`. -/
theorem cleanFrom_pairwise (t : List Cell) : ∀ k : ℕ,
    List.Pairwise (fun a b : ℕ × ℚ => a.1 < b.1)
      ((t.enumFrom k).filterMap (fun q => q.2.map (fun v => (q.1, v)))) ∧
    ∀ p ∈ (t.enumFrom k).filterMap (fun q => q.2.map (fun v => (q.1, v))), k ≤ p.1 := by
  induction t with
  | nil => simp
  | cons c t ih =>
    intro k
    cases c with
    | none =>
      refine ⟨?_, ?_⟩
      · simpa [List.enumFrom, List.filterMap_cons] using (ih (k+1)).1
      · intro p hp
        simp only [List.enumFrom, List.filterMap_cons, Option.map_none'] at hp
        have := (ih (k+1)).2 p hp
        omega
    | some v =>
      refine ⟨?_, ?_⟩
      · simp only [List.enumFrom, List.filterMap_cons, Option.map_some']
        refine List.pairwise_cons.mpr ⟨?_, (ih (k+1)).1⟩
        intro b hb
        have := (ih (k+1)).2 b hb
        simpa using by omega
      · intro p hp
        simp only [List.enumFrom, List.filterMap_cons, Option.map_some',
          List.mem_cons] at hp
        rcases hp with rfl | hp
        · simp
        · have := (ih (k+1)).2 p hp
          omega

/-- The indexed clean entries carry pairwise distinct positions, hence are
pairwise distinct. -/
theorem cleanWithIndex_nodup (data : List Cell) : (cleanWithIndex data).Nodup := by
  have h := (cleanFrom_pairwise data 0).1
  have heq : cleanWithIndex data
      = (data.enumFrom 0).filterMap (fun q => q.2.map (fun v => (q.1, v))) := rfl
  rw [heq]
  exact h.imp (fun hlt => by
    intro heq2
    rw [heq2] at hlt
    exact lt_irrefl _ hlt)

/-- Projecting the values out of the indexed clean entries recovers the plain
clean data. -/
theorem cleanWithIndex_map_snd (data : List Cell) :
    (cleanWithIndex data).map Prod.snd = cleanData data := by
  have h : ∀ k : ℕ,
      (((data.enumFrom k).filterMap (fun q => q.2.map (fun v => (q.1, v)))).map Prod.snd)
        = data.filterMap id := by
    induction data with
    | nil => simp
    | cons c t ih =>
      intro k
      cases c with
      | none => simpa [List.enumFrom, List.filterMap_cons] using ih (k+1)
      | some v =>
        simp only [List.enumFrom, List.filterMap_cons, Option.map_some', List.map_cons,
          id_eq]
        rw [ih (k+1)]
  exact h 0

/-- The index-keeping value sort is a permutation of the indexed clean data. -/
theorem sortWithIndex_perm (data : List Cell) :
    (sortWithIndex data).Perm (cleanWithIndex data) :=
  List.perm_insertionSort _ _

/-- The index-keeping value sort has as many entries as there are non-missing
values. -/
theorem sortWithIndex_length (data : List Cell) :
    (sortWithIndex data).length = (cleanData data).length := by
  rw [(sortWithIndex_perm data).length_eq, ← cleanWithIndex_map_snd data, List.length_map]

/-- C4 (amended): both extreme-observation lists of `proc_univariate` are
ordered ASCENDING by value (the source reverses the descending highest list
before returning it), and when at least 10 non-missing observations exist the
two lists are disjoint. -/
theorem claim_C4_amended (w : List ℚ → Option (ℚ × ℚ)) (data : List Cell)
    (r : UnivariateResult) (hr : proc_univariate w data = .ok r) :
    List.Sorted (· ≤ ·) (r.lowestExtreme.map Prod.snd) ∧
    List.Sorted (· ≤ ·) (r.highestExtreme.map Prod.snd) ∧
    (10 ≤ (cleanData data).length → ∀ e ∈ r.lowestExtreme, e ∉ r.highestExtreme) := by
  rw [proc_univariate] at hr
  split at hr
  · exact absurd hr (by simp)
  rename_i hlen
  have hrr : r = univResult w data := by simpa using hr.symm
  have hlow : r.lowestExtreme = (sortWithIndex data).take 5 := by
    rw [hrr]
    rfl
  have hhigh : r.highestExtreme
      = (sortWithIndex data).drop ((sortWithIndex data).length - 5) := by
    rw [hrr]
    rfl
  have hsorted : List.Pairwise (fun a b : ℕ × ℚ => a.2 ≤ b.2) (sortWithIndex data) :=
    List.sorted_insertionSort _ _
  refine ⟨?_, ?_, ?_⟩
  · rw [hlow]
    exact List.pairwise_map.mpr (hsorted.sublist (List.take_sublist 5 _))
  · rw [hhigh]
    exact List.pairwise_map.mpr (hsorted.sublist (List.drop_sublist _ _))
  · intro h10 e he hcontra
    rw [hlow] at he
    rw [hhigh] at hcontra
    have hnodup : (sortWithIndex data).Nodup :=
      ((sortWithIndex_perm data).nodup_iff).mpr (cleanWithIndex_nodup data)
    have hn : 10 ≤ (sortWithIndex data).length := by
      rw [sortWithIndex_length]
      exact h10
    have hsplit := List.take_append_drop ((sortWithIndex data).length - 5) (sortWithIndex data)
    have hnodup2 : ((sortWithIndex data).take ((sortWithIndex data).length - 5)
        ++ (sortWithIndex data).drop ((sortWithIndex data).length - 5)).Nodup := by
      rw [hsplit]
      exact hnodup
    have hdisj := (List.nodup_append.mp hnodup2).2.2
    have h5 : 5 ≤ (sortWithIndex data).length - 5 := by omega
    have htake : (sortWithIndex data).take 5
        = ((sortWithIndex data).take ((sortWithIndex data).length - 5)).take 5 := by
      rw [List.take_take, min_eq_left h5]
    have he2 : e ∈ (sortWithIndex data).take ((sortWithIndex data).length - 5) :=
      List.take_subset 5 _ (htake ▸ he)
    exact hdisj he2 hcontra

/-- Witness for C4 (amended), at the concrete column `colTen`. -/
theorem claim_C4_witness :
    List.Sorted (· ≤ ·) ((univResult wNone colTen).lowestExtreme.map Prod.snd) ∧
    List.Sorted (· ≤ ·) ((univResult wNone colTen).highestExtreme.map Prod.snd) ∧
    (10 ≤ (cleanData colTen).length → ∀ e ∈ (univResult wNone colTen).lowestExtreme,
      e ∉ (univResult wNone colTen).highestExtreme) :=
  claim_C4_amended wNone colTen _
    (proc_univariate_ok wNone colTen (by simp [colTen, cleanData]))

/-- C4 counterexample: on the column 1, …, 10 the highest-extremes list is
`[6, 7, 8, 9, 10]` — ascending by value, not descending as claimed. -/
theorem claim_C4_counterexample :
    ((proc_univariate wNone colTen).map (fun r => r.highestExtreme.map Prod.snd))
        = .ok [6, 7, 8, 9, 10] ∧
    ¬ List.Sorted (· ≥ ·) ([6, 7, 8, 9, 10] : List ℚ) := by
  constructor
  · rw [proc_univariate_ok wNone colTen (by simp [colTen, cleanData])]
    show Except.ok ((univResult wNone colTen).highestExtreme.map Prod.snd) = _
    refine congrArg Except.ok ?_
    show (((sortWithIndex colTen).drop ((sortWithIndex colTen).length - 5)).map Prod.snd) = _
    norm_num [sortWithIndex, cleanWithIndex, colTen, List.enum, List.enumFrom,
      List.insertionSort, List.orderedInsert]
  · intro h
    rcases List.sorted_cons.mp h with ⟨h6, _⟩
    have h67 := h6 7 (by norm_num)
    norm_num at h67

/-- Counting the missing and non-missing cells of a list partitions it. -/
theorem countP_isNone_add_isSome (vals : List Cell) :
    vals.countP (fun c => c.isNone) + vals.countP (fun c => c.isSome) = vals.length := by
  induction vals with
  | nil => rfl
  | cons c t ih =>
    cases c <;> simp [List.countP_cons] <;> omega

/-- C6: in the table returned by `class_conditional_distribution`, every group
row's `Missing + Non Missing` equals that group's row count, and the
`_OVERALL_` row's `Missing + Non Missing` equals the total row count. -/
theorem claim_C6 (df : List CCRow) (sr : CCStats)
    (hmem : sr ∈ class_conditional_distribution df) :
    (∀ g : ℚ, sr.level = .group g →
      sr.missing + sr.nonMissing = (df.filter (fun r => r.target = some g)).length) ∧
    (sr.level = .overall → sr.missing + sr.nonMissing = df.length) := by
  rw [class_conditional_distribution, List.mem_append] at hmem
  rcases hmem with hg | hov
  · rcases List.mem_map.mp hg with ⟨g0, hg0, hsr⟩
    constructor
    · intro g hlvl
      rw [← hsr] at hlvl ⊢
      have hgg : g0 = g := by
        simpa [ccAggregate] using hlvl
      subst hgg
      show (ccAggregate (.group g0) _).missing + (ccAggregate (.group g0) _).nonMissing = _
      rw [ccAggregate]
      rw [← List.length_map _ (fun r : CCRow => r.value)]
      exact countP_isNone_add_isSome _
    · intro hlvl
      rw [← hsr] at hlvl
      simp [ccAggregate] at hlvl
  · have hsr : sr = ccOverallStats df := by simpa using hov
    constructor
    · intro g hlvl
      rw [hsr] at hlvl
      simp [ccOverallStats, ccAggregate] at hlvl
    · intro _
      rw [hsr]
      show (ccAggregate .overall _).missing + (ccAggregate .overall _).nonMissing = _
      rw [ccAggregate]
      rw [← List.length_map _ (fun r : CCRow => r.value)]
      exact countP_isNone_add_isSome _

/-- Witness for C6: the `_OVERALL_` row of a concrete three-row dataset. -/
theorem claim_C6_witness :
    (ccOverallStats [⟨some 0, some 1⟩, ⟨some 0, none⟩, ⟨some 1, some 5⟩]).missing +
      (ccOverallStats [⟨some 0, some 1⟩, ⟨some 0, none⟩, ⟨some 1, some 5⟩]).nonMissing
      = ([⟨some 0, some 1⟩, ⟨some 0, none⟩, ⟨some 1, some 5⟩] : List CCRow).length :=
  (claim_C6 [⟨some 0, some 1⟩, ⟨some 0, none⟩, ⟨some 1, some 5⟩] _
    (List.mem_append_right _ (List.mem_singleton_self _))).2 rfl

/-- C3 counterexample: on the values 1, …, 5 the `_OVERALL_` kurtosis of
`class_conditional_distribution` is −6/5 (pandas excess convention) while
`proc_univariate` reports 9/5 (scipy Pearson convention); the two are not
equal, so no single convention is applied uniformly. -/
theorem claim_C3_counterexample :
    ((class_conditional_distribution dfFive).getLast?).map CCStats.kurtosisStat
        = some (some (-(6/5))) ∧
    (proc_univariate wNone colFive).map UnivariateResult.kurtosisStat
        = .ok (some (9/5)) ∧
    (-(6/5) : ℚ) ≠ 9/5 := by
  refine ⟨?_, ?_, by norm_num⟩
  · rw [class_conditional_distribution, List.getLast?_concat]
    refine congrArg some ?_
    show (ccOverallStats dfFive).kurtosisStat = some (-(6/5))
    show pandasKurt (cleanData (dfFive.map (fun r => r.value))) = some (-(6/5))
    have hc : cleanData (dfFive.map (fun r => r.value)) = [1, 2, 3, 4, 5] := by
      simp [dfFive, cleanData]
    rw [hc]
    norm_num [pandasKurt, sumSqDev, sumQuartDev, listMean]
  · rw [proc_univariate_ok wNone colFive (by simp [colFive, cleanData])]
    show Except.ok (univResult wNone colFive).kurtosisStat = _
    refine congrArg Except.ok ?_
    show scipyKurtosis (cleanData colFive) = some (9/5)
    have hc : cleanData colFive = [1, 2, 3, 4, 5] := by
      simp [colFive, cleanData]
    rw [hc]
    norm_num [scipyKurtosis, sumSqDev, sumQuartDev, listMean]

/-- C3 amended: `proc_univariate` and `stat_explore` do share one kurtosis
convention (scipy's Pearson non-excess), but `class_conditional_distribution`
uses pandas' excess convention, which is exactly 3 less, on any column with at
least 4 non-missing values and nonzero squared deviation. -/
theorem claim_C3_amended (xs : List Cell) (h4 : 4 ≤ (cleanData xs).length)
    (hS2 : sumSqDev (cleanData xs) ≠ 0) :
    ∃ q : ℚ,
      (∀ w, (proc_univariate w xs).map UnivariateResult.kurtosisStat = .ok (some q)) ∧
      (∀ nm, (stat_explore [(nm, xs)]).map (fun rows => rows.map ExploreRow.kurtosisStat)
          = .ok [some q]) ∧
      (∀ df : List CCRow, df.map (fun r => r.value) = xs →
        ∃ sr ∈ class_conditional_distribution df,
          sr.level = .overall ∧ sr.kurtosisStat = some (q - 3)) := by
  have hne : cleanData xs ≠ [] := by
    intro h
    rw [h] at h4
    simp at h4
  obtain ⟨q, hq⟩ : ∃ q, scipyKurtosis (cleanData xs) = some q := by
    rw [scipyKurtosis, if_neg (by push_neg; exact ⟨by omega, hS2⟩), if_pos (by omega)]
    exact ⟨_, rfl⟩
  refine ⟨q, ?_, ?_, ?_⟩
  · intro w
    rw [proc_univariate_ok w xs hne]
    show Except.ok (univResult w xs).kurtosisStat = _
    refine congrArg Except.ok ?_
    show scipyKurtosis (cleanData xs) = some q
    exact hq
  · intro nm
    rw [stat_explore, if_neg (by simp)]
    show Except.ok ([exploreRow nm xs].map ExploreRow.kurtosisStat) = _
    refine congrArg Except.ok ?_
    show [(exploreRow nm xs).kurtosisStat] = [some q]
    refine congrArg (fun o => [o]) ?_
    show (if (cleanData xs).length = 0 then none else scipyKurtosis (cleanData xs))
        = some q
    rw [if_neg (by omega), hq]
  · intro df hdf
    refine ⟨ccOverallStats df, List.mem_append_right _ (List.mem_singleton_self _),
      rfl, ?_⟩
    show pandasKurt (cleanData (df.map (fun r => r.value))) = some (q - 3)
    rw [hdf]
    exact pandasKurt_eq_scipyKurtosis_sub_three _ h4 hS2 hq

/-- Witness for C3 (amended), at the concrete column 1, …, 5. -/
theorem claim_C3_witness :
    ∃ q : ℚ,
      (∀ w, (proc_univariate w colFive).map UnivariateResult.kurtosisStat
          = .ok (some q)) ∧
      (∀ nm, (stat_explore [(nm, colFive)]).map
          (fun rows => rows.map ExploreRow.kurtosisStat) = .ok [some q]) ∧
      (∀ df : List CCRow, df.map (fun r => r.value) = colFive →
        ∃ sr ∈ class_conditional_distribution df,
          sr.level = .overall ∧ sr.kurtosisStat = some (q - 3)) :=
  claim_C3_amended colFive
    (by
      have hc : cleanData colFive = [1, 2, 3, 4, 5] := by simp [colFive, cleanData]
      rw [hc]
      norm_num)
    (by
      have hc : cleanData colFive = [1, 2, 3, 4, 5] := by simp [colFive, cleanData]
      rw [hc]
      norm_num [sumSqDev, listMean])

/-- C8: the caller's DataFrame object (heap cell 0) is unchanged by the whole
call, and the returned frame is exactly the functional result — the score and
flag columns exist only on the returned copy. -/
theorem claim_C8 (est : IsoEstimator) (df : Frame) (features : List String)
    (h : Heap) (out : Frame)
    (hr : detectProgram est df features = .ok (h, out)) :
    heapGet h 0 = df ∧ detect_outliers_isolation_forest est df features = .ok out := by
  rw [detect_outliers_isolation_forest]
  simp only [detectProgram, heapAlloc, heapGet, heapSet, List.getD_cons_zero,
    List.singleton_append, List.length_cons, List.length_nil, List.set_cons_succ,
    List.set_cons_zero, List.getD_cons_succ] at hr
  split at hr
  · exact absurd hr (by simp)
  · rename_i h1
    split at hr
    · exact absurd hr (by simp)
    · rename_i h2
      rw [if_neg h1, if_neg h2]
      injection hr with hpair
      rw [Prod.mk.injEq] at hpair
      obtain ⟨hh, hout⟩ := hpair
      subst hh
      subst hout
      exact ⟨rfl, rfl⟩

/-- The scored copy keeps the index of `df`. -/
theorem scoredFrame_index (est : IsoEstimator) (df : Frame) (features : List String) :
    (scoredFrame est df features).index = df.index := rfl

/-- The scored copy has exactly as many rows as `df`. -/
theorem scoredFrame_rows_length (est : IsoEstimator) (df : Frame)
    (features : List String) :
    (scoredFrame est df features).rows.length = df.rows.length := by
  simp [scoredFrame, frameSetColumn, featureMatrix]

/-- The length of the descending keyed sort. -/
theorem keyedSortDesc_length (f : Frame) (c : String) :
    (frameKeyedSortDesc f c).length = min f.index.length f.rows.length := by
  rw [frameKeyedSortDesc, List.length_reverse, (List.perm_insertionSort _ _).length_eq,
    List.length_zip]

/-- On success, the returned frame of `detect_outliers_isolation_forest` is the
reset-index descending sort of the scored copy. -/
theorem detect_ok_shape (est : IsoEstimator) (df : Frame) (features : List String)
    (out : Frame)
    (hr : detect_outliers_isolation_forest est df features = .ok out) :
    out = frameResetIndex (frameSortValuesDesc (scoredFrame est df features) scoreName) := by
  rw [detect_outliers_isolation_forest] at hr
  split at hr
  · exact absurd hr (by simp)
  · split at hr
    · exact absurd hr (by simp)
    · injection hr with h
      exact h.symm

/-- C2: calling the detector with an empty feature list fails with the
estimator's at-least-one-feature requirement, and calling it with feature
names missing from the columns fails — before the estimator is fitted — with
the validation error listing exactly the missing names. -/
theorem claim_C2 (est : IsoEstimator) (df : Frame) (features : List String) :
    (features = [] → detect_outliers_isolation_forest est df features
        = .error .atLeastOneFeature) ∧
    (features.filter (fun c => decide (¬ c ∈ df.cols)) ≠ [] →
      detect_outliers_isolation_forest est df features
        = .error (.validationError (features.filter (fun c => decide (¬ c ∈ df.cols))))) := by
  constructor
  · rintro rfl
    rw [detect_outliers_isolation_forest]
    simp
  · intro hm
    rw [detect_outliers_isolation_forest, if_pos hm]

/-- Witness for C2, at a concrete frame: the empty feature list and a missing
feature name. -/
theorem claim_C2_witness :
    detect_outliers_isolation_forest estC dfTwo [] = .error .atLeastOneFeature ∧
    detect_outliers_isolation_forest estC dfTwo ["b"]
      = .error (.validationError ["b"]) := by
  constructor
  · exact (claim_C2 estC dfTwo []).1 rfl
  · have hf : (["b"].filter (fun c => decide (¬ c ∈ dfTwo.cols))) = ["b"] := by
      simp [dfTwo]
    have h := (claim_C2 estC dfTwo ["b"]).2 (by rw [hf]; simp)
    rw [hf] at h
    exact h

/-- Reversing a list sorted ascending by a row key and projecting the key
yields a descending-sorted list of key values. -/
theorem sorted_desc_score (cols : List String) (c : String) (l : List (ℕ × List ℚ))
    (h : List.Pairwise (fun a b => colValue cols a.2 c ≤ colValue cols b.2 c) l) :
    List.Sorted (· ≥ ·) ((l.reverse.map Prod.snd).map (fun r => colValue cols r c)) := by
  show List.Pairwise (fun a b : ℚ => a ≥ b)
    ((l.reverse.map Prod.snd).map (fun r => colValue cols r c))
  rw [List.map_map, List.pairwise_map, List.pairwise_reverse]
  exact h

/-- C1 (amended): on success the returned table has exactly as many rows as the
input and its `outlier_score` column is sorted descending; but equal-score rows
are NOT kept in their original relative order (see the counterexample: the
descending sort reverses ties). -/
theorem claim_C1_amended (est : IsoEstimator) (df : Frame) (features : List String)
    (out : Frame)
    (hr : detect_outliers_isolation_forest est df features = .ok out)
    (hix : df.index.length = df.rows.length) :
    out.rows.length = df.rows.length ∧
    List.Sorted (· ≥ ·) (out.rows.map (fun r => colValue out.cols r scoreName)) := by
  have hshape := detect_ok_shape est df features out hr
  have hrows : out.rows
      = (frameKeyedSortDesc (scoredFrame est df features) scoreName).map Prod.snd := by
    rw [hshape]
    rfl
  have hcols : out.cols = (scoredFrame est df features).cols := by
    rw [hshape]
    rfl
  constructor
  · rw [hrows, List.length_map, keyedSortDesc_length, scoredFrame_index,
      scoredFrame_rows_length, hix, min_self]
  · rw [hrows, hcols]
    have hasc := by
      haveI h1 : IsTotal (ℕ × List ℚ)
          (fun a b => colValue (scoredFrame est df features).cols a.2 scoreName
            ≤ colValue (scoredFrame est df features).cols b.2 scoreName) :=
        ⟨fun a b => le_total _ _⟩
      haveI h2 : IsTrans (ℕ × List ℚ)
          (fun a b => colValue (scoredFrame est df features).cols a.2 scoreName
            ≤ colValue (scoredFrame est df features).cols b.2 scoreName) :=
        ⟨fun _ _ _ => le_trans⟩
      exact List.sorted_insertionSort
        (fun a b : ℕ × List ℚ => colValue (scoredFrame est df features).cols a.2 scoreName
          ≤ colValue (scoredFrame est df features).cols b.2 scoreName)
        ((scoredFrame est df features).index.zip (scoredFrame est df features).rows)
    rw [frameKeyedSortDesc]
    exact sorted_desc_score _ _ _ hasc

/-- The concrete run used by the witnesses: on `dfTwo` with the constant
estimator, the detector returns `outTwo` (rows reversed, index reset). -/
theorem detect_dfTwo_eval :
    detect_outliers_isolation_forest estC dfTwo ["a"] = .ok outTwo := by
  simp [detect_outliers_isolation_forest, dfTwo, estC, outTwo, featureMatrix, colValue,
    frameResetIndex, frameSortValuesDesc, frameKeyedSortDesc, frameSetColumn,
    setColNames, setEntry, scoreName, flagName, List.insertionSort, List.orderedInsert,
    List.indexOf, List.findIdx, List.findIdx.go, List.range, List.range.loop]

/-- Witness for C1 (amended), at the concrete tied-scores run. -/
theorem claim_C1_witness :
    outTwo.rows.length = dfTwo.rows.length ∧
    List.Sorted (· ≥ ·) (outTwo.rows.map (fun r => colValue outTwo.cols r scoreName)) :=
  claim_C1_amended estC dfTwo ["a"] outTwo detect_dfTwo_eval (by simp [dfTwo])

/-- C1 counterexample: on `dfTwo` both rows receive the same outlier score 0,
yet the returned rows are `[[2,0,0],[1,0,0]]` — the reverse of the original
relative order `[[1,0,0],[2,0,0]]` — so the tie-breaking of the claimed stable
sort does not hold. -/
theorem claim_C1_counterexample :
    (detect_outliers_isolation_forest estC dfTwo ["a"]).map Frame.rows
        = .ok [[2, 0, 0], [1, 0, 0]] ∧
    colValue outTwo.cols [[2, 0, 0], [1, 0, 0]].headI scoreName
      = colValue outTwo.cols [[1, 0, 0], [2, 0, 0]].headI scoreName ∧
    ([[2, 0, 0], [1, 0, 0]] : List (List ℚ)) ≠ [[1, 0, 0], [2, 0, 0]] := by
  refine ⟨?_, ?_, by simp⟩
  · rw [detect_dfTwo_eval]
    rfl
  · simp [outTwo, colValue, scoreName, List.indexOf, List.findIdx, List.findIdx.go]

/-- C10: on success the returned table's index is `0..n-1` in the new
(score-sorted) order — `reset_index(drop=True)` relabels the rows, so the
returned index is a constant function of the row count alone and the original
labels do not survive into the returned table. -/
theorem claim_C10 (est : IsoEstimator) (df : Frame) (features : List String)
    (out : Frame)
    (hr : detect_outliers_isolation_forest est df features = .ok out)
    (hix : df.index.length = df.rows.length) :
    out.index = List.range df.rows.length := by
  have hshape := detect_ok_shape est df features out hr
  have hidx : out.index
      = List.range ((frameKeyedSortDesc (scoredFrame est df features) scoreName).map
          Prod.snd).length := by
    rw [hshape]
    rfl
  rw [hidx, List.length_map, keyedSortDesc_length, scoredFrame_index,
    scoredFrame_rows_length, hix, min_self]

/-- Witness for C10, at the concrete tied-scores run. -/
theorem claim_C10_witness : outTwo.index = List.range dfTwo.rows.length :=
  claim_C10 estC dfTwo ["a"] outTwo detect_dfTwo_eval (by simp [dfTwo])

/-- Witness for C8, at the concrete tied-scores run: the caller's frame (heap
cell 0) is unchanged and the returned copy is `outTwo`. -/
theorem claim_C8_witness :
    heapGet [dfTwo,
        ⟨["a", "outlier_score", "outlier_flag"], [0, 1], [[1, 0, 0], [2, 0, 0]]⟩] 0
      = dfTwo ∧
    detect_outliers_isolation_forest estC dfTwo ["a"] = .ok outTwo :=
  claim_C8 estC dfTwo ["a"]
    [dfTwo, ⟨["a", "outlier_score", "outlier_flag"], [0, 1], [[1, 0, 0], [2, 0, 0]]⟩]
    outTwo
    (by simp [detectProgram, heapGet, heapSet, heapAlloc, dfTwo, estC, outTwo,
      featureMatrix, colValue, frameResetIndex, frameSortValuesDesc, frameKeyedSortDesc,
      frameSetColumn, setColNames, setEntry, scoreName, flagName, List.insertionSort,
      List.orderedInsert, List.indexOf, List.findIdx, List.findIdx.go, List.range,
      List.range.loop])

/-- Witness for C5, at the concrete empty column. -/
theorem claim_C5_witness :
    (∃ e, proc_univariate wNone [] = .error e) ↔ cleanData [] = [] :=
  claim_C5 wNone []

/-- Witness for C9, at the concrete always-failing Wilcoxon collaborator. -/
theorem claim_C9_witness :
    (proc_univariate wNone [some 1, some (-1)]).map UnivariateResult.signPvalue
        = .ok (3/2) ∧ (1 : ℚ) < 3/2 :=
  claim_C9 wNone

end Diagnosys
